import Mathlib

/-!
Verification of the claude-spend parsing/aggregation pipeline
(`src/parser.js`).  The JavaScript source is shallowly embedded: pure
functions become Lean functions, the streaming state machines become
explicit folds, JS numbers used for money become `ℚ`, and token counters
become `Nat`.  JS string truthiness (`null`/`""` falsy) is modelled by
the `jsOr*` helpers.
-/

namespace ClaudeSpend

/-- JS `a || d` for an optional string, where `null` and `""` are falsy. -/
def jsOrStr (o : Option String) (d : String) : String :=
  match o with
  | some s => if s = "" then d else s
  | none => d

/-- JS `a || null` for an optional string: collapses `""` to `null`. -/
def jsOrNull (o : Option String) : Option String :=
  match o with
  | some s => if s = "" then none else some s
  | none => none

/-- JS `a || b` for two optional strings. -/
def jsOrOpt (a b : Option String) : Option String :=
  match a with
  | some s => if s = "" then b else some s
  | none => b

/-- JS truthiness of a nullable string. -/
def jsTruthy (o : Option String) : Bool :=
  match o with
  | some s => s != ""
  | none => false

/-- ASCII lower-casing (`String.toLowerCase` / the regex `/i` flag). -/
def strLower (s : String) : String :=
  ⟨s.data.map Char.toLower⟩

/-- Whitespace trim on both ends (`String.prototype.trim`). -/
def strTrim (s : String) : String :=
  ⟨((s.data.dropWhile Char.isWhitespace).reverse.dropWhile Char.isWhitespace).reverse⟩

/-- Literal-prefix test (`String.prototype.startsWith`). -/
def strStartsWith (s pat : String) : Bool :=
  pat.data.isPrefixOf s.data

/-- Lexicographic order on strings (`localeCompare` on ASCII dates). -/
def charListLe : List Char → List Char → Bool
  | [], _ => true
  | _ :: _, [] => false
  | a :: as, b :: bs => if a = b then charListLe as bs else decide (a < b)

def strLe (a b : String) : Bool :=
  charListLe a.data b.data

/-- Join a list of strings with a separator (`Array.prototype.join`). -/
def joinSep (sep : String) : List String → String
  | [] => ""
  | [s] => s
  | s :: rest => s ++ sep ++ joinSep sep rest

/-! ### Pricing (PRICING table, getPricing, estimateCost) -/

/-- One pricing tier: $ per million tokens, as in the `PRICING` table. -/
structure Pricing where
  input : ℚ
  cacheWrite : ℚ
  cacheRead : ℚ
  output : ℚ
deriving DecidableEq

def opusPricing : Pricing := ⟨15, 18.75, 1.5, 75⟩
def sonnetPricing : Pricing := ⟨3, 3.75, 0.3, 15⟩
def haikuPricing : Pricing := ⟨0.8, 1, 0.08, 4⟩
/-- `PRICING_FALLBACK` from the source (sonnet-level rates). -/
def PRICING_FALLBACK : Pricing := ⟨3, 3.75, 0.3, 15⟩

/-- Substring containment on character lists (the `/claude-opus/i` style
regexes are plain substring searches once the input is lowercased). -/
def containsSub (pat : List Char) : List Char → Bool
  | [] => pat.isEmpty
  | c :: cs => pat.isPrefixOf (c :: cs) || containsSub pat cs

/-- `[^-]*` followed by the literal `tail`, anchored at the current
position: either `tail` matches here, or the head is a non-hyphen
character and we continue. -/
def starThen (tail : List Char) : List Char → Bool
  | [] => tail.isEmpty
  | c :: cs => tail.isPrefixOf (c :: cs) || (c != '-' && starThen tail cs)

/-- Match of `/claude-3[^-]*-<family>/` anchored at the current position. -/
def legacyAt (family : List Char) (cs : List Char) : Bool :=
  "claude-3".toList.isPrefixOf cs && starThen ('-' :: family) (cs.drop 8)

/-- Unanchored search for `/claude-3[^-]*-<family>/`. -/
def legacyMatch (family : List Char) : List Char → Bool
  | [] => false
  | c :: cs => legacyAt family (c :: cs) || legacyMatch family cs

/-- `getPricing`: the ordered `PRICING` tier list tried first-match,
then `PRICING_FALLBACK`.  The `/i` flag is modelled by lowercasing. -/
def getPricing (model : String) : Pricing :=
  let m := model.data.map Char.toLower
  if containsSub "claude-opus".toList m then opusPricing
  else if containsSub "claude-sonnet".toList m then sonnetPricing
  else if containsSub "claude-haiku".toList m then haikuPricing
  else if legacyMatch "opus".toList m then opusPricing
  else if legacyMatch "sonnet".toList m then sonnetPricing
  else if legacyMatch "haiku".toList m then haikuPricing
  else PRICING_FALLBACK

/-- `estimateCost`: USD cost of one API call, four per-bucket terms each
divided by 1e6, exactly as written in the source. -/
def estimateCost (model : String) (freshInput cacheWrite cacheRead output : Nat) : ℚ :=
  let p := getPricing model
  (freshInput * p.input) / 1000000 +
  (cacheWrite * p.cacheWrite) / 1000000 +
  (cacheRead * p.cacheRead) / 1000000 +
  (output * p.output) / 1000000

/-! ### Transcript entries and extractSessionData -/

/-- The `input` object of a `tool_use` block (only the fields the parser
reads: `file_path` and `path`). -/
structure ToolInput where
  file_path : Option String
  path : Option String
deriving DecidableEq

/-- One tool invocation recorded on a query. -/
structure ToolCall where
  name : String
  input : ToolInput
deriving DecidableEq

/-- One block of a message `content` array. -/
structure Block where
  btype : String
  text : String
  name : String
  input : ToolInput
deriving DecidableEq

/-- `message.content`: either a plain string or an array of blocks. -/
inductive ContentV where
  | str (s : String)
  | arr (bs : List Block)
deriving DecidableEq

/-- `message.usage`; absent numeric fields are 0 (the `|| 0` defaults). -/
structure Usage where
  input_tokens : Nat
  cache_creation_input_tokens : Nat
  cache_read_input_tokens : Nat
  output_tokens : Nat
deriving DecidableEq

structure Message where
  role : String
  content : Option ContentV
  usage : Option Usage
  model : Option String
deriving DecidableEq

/-- One JSONL transcript line, with the fields `extractSessionData` reads. -/
structure Entry where
  etype : String
  message : Option Message
  isMeta : Bool
  timestamp : Option String
deriving DecidableEq

/-- A normalized Query record (the object pushed by `extractSessionData`). -/
structure Query where
  userPrompt : Option String
  userTimestamp : Option String
  assistantTimestamp : Option String
  model : String
  freshInputTokens : Nat
  cacheWriteTokens : Nat
  cacheReadTokens : Nat
  inputTokens : Nat
  outputTokens : Nat
  totalTokens : Nat
  estimatedCost : ℚ
  tools : List ToolCall
deriving DecidableEq

/-- The pending user message carried across entries. -/
structure PendingMsg where
  text : Option String
  timestamp : Option String
deriving DecidableEq

/-- Text of a user message: the string itself, or the joined-and-trimmed
`text` blocks of a content array. -/
def userPromptText : ContentV → String
  | .str s => s
  | .arr bs =>
      strTrim (joinSep "\n" ((bs.filter fun b => b.btype == "text").map fun b => b.text))

/-- Command/meta envelope filter (literal prefix match on string content). -/
def isCommandText : ContentV → Bool
  | .str s => strStartsWith s "<local-command" || strStartsWith s "<command-name"
  | .arr _ => false

/-- Tool invocations of an assistant message: `tool_use` blocks with a
truthy `name`. -/
def toolsOfContent : Option ContentV → List ToolCall
  | some (.arr bs) =>
      (bs.filter fun b => b.btype == "tool_use" && b.name != "").map fun b => ⟨b.name, b.input⟩
  | _ => []

/-- The Query built for one assistant entry. -/
def mkAssistantQuery (pending : Option PendingMsg) (e : Entry) (msg : Message) : Query :=
  let usage := msg.usage.getD ⟨0, 0, 0, 0⟩
  let model := jsOrStr msg.model "unknown"
  let fresh := usage.input_tokens
  let cw := usage.cache_creation_input_tokens
  let cr := usage.cache_read_input_tokens
  let out := usage.output_tokens
  let inputTokens := fresh + cw + cr
  { userPrompt := jsOrNull (pending.bind (·.text))
    userTimestamp := jsOrNull (pending.bind (·.timestamp))
    assistantTimestamp := e.timestamp
    model := model
    freshInputTokens := fresh
    cacheWriteTokens := cw
    cacheReadTokens := cr
    inputTokens := inputTokens
    outputTokens := out
    totalTokens := inputTokens + out
    estimatedCost := estimateCost model fresh cw cr out
    tools := toolsOfContent msg.content }

/-- Pending-user-message update of one entry: user rows replace the
pending message unless meta / command-filtered; other rows keep it. -/
def entryPending (pending : Option PendingMsg) (e : Entry) : Option PendingMsg :=
  if e.etype = "user" then
    match e.message with
    | some msg =>
      if msg.role = "user" then
        if e.isMeta then pending
        else
          match msg.content with
          | some c =>
            if isCommandText c then pending
            else
              let t := userPromptText c
              some ⟨if t = "" then none else some t, e.timestamp⟩
          | none => pending
      else pending
    | none => pending
  else pending

/-- Query emitted by one entry: assistant rows emit unless the model is
the `<synthetic>` sentinel.  Rows whose `message` is absent carry no
usable data. -/
def entryEmit (pending : Option PendingMsg) (e : Entry) : Option Query :=
  if e.etype = "assistant" then
    match e.message with
    | some msg =>
      if jsOrStr msg.model "unknown" = "<synthetic>" then none
      else some (mkAssistantQuery pending e msg)
    | none => none
  else none

/-- The scan of `extractSessionData`, threading the pending user message
through the entry stream. -/
def extractGo (pending : Option PendingMsg) : List Entry → List Query
  | [] => []
  | e :: es => (entryEmit pending e).toList ++ extractGo (entryPending pending e) es

/-- `extractSessionData`: normalized Query stream of one transcript. -/
def extractSessionData (entries : List Entry) : List Query :=
  extractGo none entries

/-! ### Stable sorts (JS `Array.prototype.sort` is stable) -/

/-- Insert into a descending-by-key list, after all entries with a key
at least as large (so equal keys keep insertion order). -/
def insertDescBy (key : α → Nat) (x : α) : List α → List α
  | [] => [x]
  | y :: ys => if key x ≤ key y then y :: insertDescBy key x ys else x :: y :: ys

/-- Stable descending sort by a `Nat` key: `sort((a,b) => key b - key a)`. -/
def stableSortDescBy (key : α → Nat) (l : List α) : List α :=
  l.foldl (fun acc x => insertDescBy key x acc) []

/-- Insert into an ascending-by-key list, after all entries with a key
at most as large. -/
def insertAscBy (key : α → String) (x : α) : List α → List α
  | [] => [x]
  | y :: ys => if strLe (key y) (key x) then y :: insertAscBy key x ys else x :: y :: ys

/-- Stable ascending sort by a string key: `sort((a,b) => a.localeCompare(b))`. -/
def stableSortAscBy (key : α → String) (l : List α) : List α :=
  l.foldl (fun acc x => insertAscBy key x acc) []

/-! ### analyzePromptQuality (search / rework accounting) -/

/-- The target of a `Write File` call: `input.file_path || input.path || 'unknown'`. -/
def writeKey (t : ToolCall) : String :=
  jsOrStr (jsOrOpt t.input.file_path t.input.path) "unknown"

/-- Bump a string-keyed counter object (insertion order preserved). -/
def bumpCount (l : List (String × Nat)) (k : String) : List (String × Nat) :=
  match l with
  | [] => [(k, 1)]
  | (k', n) :: rest => if k' = k then (k', n + 1) :: rest else (k', n) :: bumpCount rest k

/-- Add to a list if not already present (a JS `Set`). -/
def addUnique (l : List String) (k : String) : List String :=
  if l.contains k then l else l ++ [k]

/-- Scanning state of the tool loop inside `analyzePromptQuality`. -/
structure QualityState where
  searchAttempts : Nat
  uniqueTools : List String
  fileWrites : List (String × Nat)
  reworkLoops : Nat
deriving DecidableEq

/-- One tool call of the `analyzePromptQuality` loop.  The three
counters are updated independently by the loop body. -/
def qualityStep (st : QualityState) (t : ToolCall) : QualityState :=
  let search1 :=
    if t.name == "Search" || t.name == "List Directory" then st.searchAttempts + 1
    else if t.name == "Read File" && decide (0 < st.searchAttempts) then
      st.searchAttempts + 1
    else st.searchAttempts
  let uniq := addUnique st.uniqueTools t.name
  if t.name == "Write File" then
    let k := writeKey t
    let writes := bumpCount st.fileWrites k
    if decide (1 < (writes.lookup k).getD 0) then
      ⟨search1, uniq, writes, st.reworkLoops + 1⟩
    else
      ⟨search1, uniq, writes, st.reworkLoops⟩
  else ⟨search1, uniq, st.fileWrites, st.reworkLoops⟩

/-- The result object of `analyzePromptQuality` (the fields downstream
code reads; the specificity regexes feed no aggregated number used by
the properties verified here and are omitted). -/
structure CostAnalysis where
  promptLength : Nat
  contextTokensAtTurn : Nat
  toolCallCount : Nat
  uniqueToolCalls : Nat
  searchAttempts : Nat
  reworkLoops : Nat
deriving DecidableEq

/-- `analyzePromptQuality` over a prompt group's queries. -/
def analyzePromptQuality (promptText : String) (queries : List Query)
    (cumulativeInputTokens : Nat) : CostAnalysis :=
  let final := ((queries.map (·.tools)).flatten).foldl qualityStep ⟨0, [], [], 0⟩
  { promptLength := promptText.length
    contextTokensAtTurn := cumulativeInputTokens
    toolCallCount := ((queries.map (·.tools)).flatten).length
    uniqueToolCalls := final.uniqueTools.length
    searchAttempts := final.searchAttempts
    reworkLoops := final.reworkLoops }

/-! ### Session-level prompt grouping (the allPrompts accumulation) -/

/-- One entry of the session-level `allPrompts` list. -/
structure PromptGroup where
  prompt : String
  inputTokens : Nat
  outputTokens : Nat
  totalTokens : Nat
  date : String
  sessionId : String
  model : String
  queries : List Query
  contextDepth : Nat
  costAnalysis : CostAnalysis
deriving DecidableEq

/-- The mutable locals of the session-level grouping loop. -/
structure GroupState where
  currentPrompt : Option String
  promptInput : Nat
  promptOutput : Nat
  promptQueries : List Query
  cumulativeContext : Nat
  runningContext : Nat
  acc : List PromptGroup
deriving DecidableEq

def initGroupState : GroupState := ⟨none, 0, 0, [], 0, 0, []⟩

/-- `flushPrompt`: emit the open group when it has a truthy prompt and a
positive input+output sum. -/
def flushPrompt (date sid model : String) (st : GroupState) : List PromptGroup :=
  if jsTruthy st.currentPrompt && decide (0 < st.promptInput + st.promptOutput) then
    st.acc ++ [{ prompt := (st.currentPrompt.getD "").take 300
                 inputTokens := st.promptInput
                 outputTokens := st.promptOutput
                 totalTokens := st.promptInput + st.promptOutput
                 date := date, sessionId := sid, model := model
                 queries := st.promptQueries
                 contextDepth := st.cumulativeContext
                 costAnalysis := analyzePromptQuality (st.currentPrompt.getD "")
                   st.promptQueries st.cumulativeContext }]
  else st.acc

/-- One query of the grouping loop: a new truthy prompt flushes and
restarts the group; every query is folded into the open group and the
running input-token context advances. -/
def groupStep (date sid model : String) (st : GroupState) (q : Query) : GroupState :=
  let st :=
    if jsTruthy q.userPrompt && (q.userPrompt != st.currentPrompt) then
      { currentPrompt := q.userPrompt
        promptInput := 0, promptOutput := 0, promptQueries := []
        cumulativeContext := st.runningContext
        runningContext := st.runningContext
        acc := flushPrompt date sid model st }
    else st
  { st with promptInput := st.promptInput + q.inputTokens
            promptOutput := st.promptOutput + q.outputTokens
            promptQueries := st.promptQueries ++ [q]
            runningContext := st.runningContext + q.inputTokens }

/-- The session-level prompt groups of one query stream. -/
def sessionPromptGroups (date sid model : String) (qs : List Query) : List PromptGroup :=
  flushPrompt date sid model (qs.foldl (groupStep date sid model) initGroupState)

/-! ### Session building -/

/-- One aggregated Session record. -/
structure Session where
  sessionId : String
  project : String
  date : String
  timestamp : Option String
  firstPrompt : String
  model : String
  queryCount : Nat
  queries : List Query
  freshInputTokens : Nat
  cacheWriteTokens : Nat
  cacheReadTokens : Nat
  inputTokens : Nat
  outputTokens : Nat
  totalTokens : Nat
  estimatedCost : ℚ
deriving DecidableEq

/-- One line of `history.jsonl`. -/
structure HistEntry where
  sessionId : Option String
  display : Option String
deriving DecidableEq

/-- The `sessionFirstPrompt` map: first usable `display` per session id,
skipping short slash commands. -/
def buildHistoryMap (l : List HistEntry) : List (String × String) :=
  l.foldl
    (fun m e =>
      match e.sessionId, e.display with
      | some sid, some disp =>
        if sid != "" && disp != "" && (m.lookup sid).isNone then
          let d := strTrim disp
          if strStartsWith d "/" && decide (d.length < 30) then m else m ++ [(sid, d)]
        else m
      | _, _ => m)
    []

/-- `entries.find(e => e.timestamp)?.timestamp`. -/
def findTimestamp (entries : List Entry) : Option String :=
  (entries.find? (fun e => jsTruthy e.timestamp)).bind (·.timestamp)

/-- `ts.split('T')[0]`. -/
def datePart (ts : String) : String :=
  ⟨ts.data.takeWhile (fun c => c != 'T')⟩

/-- Per-query model counts, in first-seen order (`modelCounts`). -/
def modelCounts (qs : List Query) : List (String × Nat) :=
  qs.foldl (fun m q => bumpCount m q.model) []

/-- Plurality vote for the session's primary model. -/
def primaryModel (qs : List Query) : String :=
  match stableSortDescBy (fun p => p.2) (modelCounts qs) with
  | [] => "unknown"
  | (m, _) :: _ => jsOrStr (some m) "unknown"

/-- Build a Session from a transcript's entries and extracted queries
(the per-file body of `parseAllSessions`). -/
def buildSession (histMap : List (String × String)) (projectDir sid : String)
    (entries : List Entry) (queries : List Query) : Session :=
  let firstTimestamp := findTimestamp entries
  let date := match firstTimestamp with
    | some ts => datePart ts
    | none => "unknown"
  let firstPrompt :=
    jsOrStr (jsOrOpt (histMap.lookup sid)
      ((queries.find? (fun q => jsTruthy q.userPrompt)).bind (·.userPrompt))) "(no prompt)"
  { sessionId := sid
    project := projectDir
    date := date
    timestamp := firstTimestamp
    firstPrompt := firstPrompt.take 200
    model := primaryModel queries
    queryCount := queries.length
    queries := queries
    freshInputTokens := (queries.map (·.freshInputTokens)).sum
    cacheWriteTokens := (queries.map (·.cacheWriteTokens)).sum
    cacheReadTokens := (queries.map (·.cacheReadTokens)).sum
    inputTokens := (queries.map (·.inputTokens)).sum
    outputTokens := (queries.map (·.outputTokens)).sum
    totalTokens := (queries.map (·.inputTokens)).sum + (queries.map (·.outputTokens)).sum
    estimatedCost := (queries.map (·.estimatedCost)).sum }

/-! ### Daily and model aggregation maps -/

/-- One `dailyMap` bucket. -/
structure DailyBucket where
  date : String
  inputTokens : Nat
  outputTokens : Nat
  totalTokens : Nat
  cacheReadTokens : Nat
  cacheWriteTokens : Nat
  estimatedCost : ℚ
  sessions : Nat
  queries : Nat
deriving DecidableEq

/-- Fold one session's sums into `dailyMap` (dates ≠ "unknown" only). -/
def addToDailyMap (s : Session) : List DailyBucket → List DailyBucket
  | [] => [⟨s.date, s.inputTokens, s.outputTokens, s.totalTokens,
           s.cacheReadTokens, s.cacheWriteTokens, s.estimatedCost, 1, s.queryCount⟩]
  | b :: bs =>
    if b.date = s.date then
      ⟨b.date, b.inputTokens + s.inputTokens, b.outputTokens + s.outputTokens,
       b.totalTokens + s.totalTokens, b.cacheReadTokens + s.cacheReadTokens,
       b.cacheWriteTokens + s.cacheWriteTokens, b.estimatedCost + s.estimatedCost,
       b.sessions + 1, b.queries + s.queryCount⟩ :: bs
    else b :: addToDailyMap s bs

/-- The daily-map update for one session (unknown dates are skipped). -/
def dailyStep (m : List DailyBucket) (s : Session) : List DailyBucket :=
  if s.date != "unknown" then addToDailyMap s m else m

/-- One `modelMap` bucket. -/
structure ModelBucket where
  model : String
  inputTokens : Nat
  outputTokens : Nat
  totalTokens : Nat
  cacheReadTokens : Nat
  cacheWriteTokens : Nat
  estimatedCost : ℚ
  queryCount : Nat
deriving DecidableEq

/-- Fold one query into `modelMap`. -/
def addToModelMap (q : Query) : List ModelBucket → List ModelBucket
  | [] => [⟨q.model, q.inputTokens, q.outputTokens, q.totalTokens,
           q.cacheReadTokens, q.cacheWriteTokens, q.estimatedCost, 1⟩]
  | b :: bs =>
    if b.model = q.model then
      ⟨b.model, b.inputTokens + q.inputTokens, b.outputTokens + q.outputTokens,
       b.totalTokens + q.totalTokens, b.cacheReadTokens + q.cacheReadTokens,
       b.cacheWriteTokens + q.cacheWriteTokens, b.estimatedCost + q.estimatedCost,
       b.queryCount + 1⟩ :: bs
    else b :: addToModelMap q bs

/-- Is the model one of the sentinels excluded from per-model buckets? -/
def isSentinelModel (m : String) : Bool :=
  m == "<synthetic>" || m == "unknown"

/-- The `modelMap` accumulation over a query stream: sentinels skipped. -/
def buildModelMap (init : List ModelBucket) (qs : List Query) : List ModelBucket :=
  qs.foldl (fun m q => if isSentinelModel q.model then m else addToModelMap q m) init

/-! ### Per-project aggregation -/

/-- A per-project, per-model bucket (`projectMap[..].modelMap`). -/
structure ProjModelBucket where
  model : String
  inputTokens : Nat
  outputTokens : Nat
  totalTokens : Nat
  estimatedCost : ℚ
  queryCount : Nat
deriving DecidableEq

/-- Fold one query into a project's model map. -/
def addToProjModelMap (q : Query) : List ProjModelBucket → List ProjModelBucket
  | [] => [⟨q.model, q.inputTokens, q.outputTokens, q.totalTokens, q.estimatedCost, 1⟩]
  | b :: bs =>
    if b.model = q.model then
      ⟨b.model, b.inputTokens + q.inputTokens, b.outputTokens + q.outputTokens,
       b.totalTokens + q.totalTokens, b.estimatedCost + q.estimatedCost,
       b.queryCount + 1⟩ :: bs
    else b :: addToProjModelMap q bs

/-- One entry of a project's prompt list (`p.allPrompts`). -/
structure ProjPrompt where
  prompt : String
  inputTokens : Nat
  outputTokens : Nat
  totalTokens : Nat
  estimatedCost : ℚ
  continuations : Nat
  model : String
  toolCounts : List (String × Nat)
  date : String
  sessionId : String
deriving DecidableEq

/-- The mutable locals of the per-project prompt grouping loop. -/
structure ProjGroupState where
  curPrompt : Option String
  curInput : Nat
  curOutput : Nat
  curCost : ℚ
  curConts : Nat
  curModels : List (String × Nat)
  curTools : List (String × Nat)
  acc : List ProjPrompt
deriving DecidableEq

def initProjGroupState : ProjGroupState := ⟨none, 0, 0, 0, 0, [], [], []⟩

/-- `flushProjectPrompt`. -/
def flushProjectPrompt (s : Session) (st : ProjGroupState) : List ProjPrompt :=
  if jsTruthy st.curPrompt && decide (0 < st.curInput + st.curOutput) then
    let topModel :=
      match stableSortDescBy (fun p => p.2) st.curModels with
      | [] => s.model
      | (m, _) :: _ => jsOrStr (some m) s.model
    st.acc ++ [{ prompt := (st.curPrompt.getD "").take 300
                 inputTokens := st.curInput
                 outputTokens := st.curOutput
                 totalTokens := st.curInput + st.curOutput
                 estimatedCost := st.curCost
                 continuations := st.curConts
                 model := topModel
                 toolCounts := st.curTools
                 date := s.date
                 sessionId := s.sessionId }]
  else st.acc

/-- One query of the per-project grouping loop. -/
def projGroupStep (s : Session) (st : ProjGroupState) (q : Query) : ProjGroupState :=
  let st :=
    if jsTruthy q.userPrompt && (q.userPrompt != st.curPrompt) then
      { curPrompt := q.userPrompt, curInput := 0, curOutput := 0, curCost := 0
        curConts := 0, curModels := [], curTools := []
        acc := flushProjectPrompt s st }
    else if !jsTruthy q.userPrompt then
      { st with curConts := st.curConts + 1 }
    else st
  { st with curInput := st.curInput + q.inputTokens
            curOutput := st.curOutput + q.outputTokens
            curCost := st.curCost + q.estimatedCost
            curModels :=
              if q.model != "" && q.model != "<synthetic>" then
                bumpCount st.curModels q.model
              else st.curModels
            curTools := q.tools.foldl (fun m t => bumpCount m t.name) st.curTools }

/-- The per-project prompt groups contributed by one session. -/
def projectPromptGroups (s : Session) : List ProjPrompt :=
  flushProjectPrompt s (s.queries.foldl (projGroupStep s) initProjGroupState)

/-- One `projectMap` accumulator entry. -/
structure ProjAcc where
  project : String
  inputTokens : Nat
  outputTokens : Nat
  totalTokens : Nat
  cacheReadTokens : Nat
  cacheWriteTokens : Nat
  estimatedCost : ℚ
  sessionCount : Nat
  queryCount : Nat
  modelMap : List ProjModelBucket
  allPrompts : List ProjPrompt
deriving DecidableEq

/-- Fold one session's queries into a project's model map
(skipping `<synthetic>` and `unknown`). -/
def projModelMapOf (init : List ProjModelBucket) (qs : List Query) : List ProjModelBucket :=
  qs.foldl (fun m q => if isSentinelModel q.model then m else addToProjModelMap q m) init

/-- Fold one session into the `projectMap`. -/
def addSessionToProjectMap (s : Session) : List ProjAcc → List ProjAcc
  | [] => [⟨s.project, s.inputTokens, s.outputTokens, s.totalTokens,
           s.cacheReadTokens, s.cacheWriteTokens, s.estimatedCost, 1, s.queryCount,
           projModelMapOf [] s.queries, projectPromptGroups s⟩]
  | p :: ps =>
    if p.project = s.project then
      ⟨p.project, p.inputTokens + s.inputTokens, p.outputTokens + s.outputTokens,
       p.totalTokens + s.totalTokens, p.cacheReadTokens + s.cacheReadTokens,
       p.cacheWriteTokens + s.cacheWriteTokens, p.estimatedCost + s.estimatedCost,
       p.sessionCount + 1, p.queryCount + s.queryCount,
       projModelMapOf p.modelMap s.queries,
       p.allPrompts ++ projectPromptGroups s⟩ :: ps
    else p :: addSessionToProjectMap s ps

/-- One entry of `projectBreakdown`. -/
structure ProjectBucket where
  project : String
  inputTokens : Nat
  outputTokens : Nat
  totalTokens : Nat
  cacheReadTokens : Nat
  cacheWriteTokens : Nat
  estimatedCost : ℚ
  sessionCount : Nat
  queryCount : Nat
  modelBreakdown : List ProjModelBucket
  topPrompts : List ProjPrompt
deriving DecidableEq

/-- `projectBreakdown`: map the accumulator to buckets with sorted model
lists and top-10 prompt lists, then sort projects by total tokens. -/
def buildProjectBreakdown (sessions : List Session) : List ProjectBucket :=
  let projectMap := sessions.foldl (fun m s => addSessionToProjectMap s m) []
  stableSortDescBy (fun p => p.totalTokens)
    (projectMap.map fun p =>
      { project := p.project
        inputTokens := p.inputTokens
        outputTokens := p.outputTokens
        totalTokens := p.totalTokens
        cacheReadTokens := p.cacheReadTokens
        cacheWriteTokens := p.cacheWriteTokens
        estimatedCost := p.estimatedCost
        sessionCount := p.sessionCount
        queryCount := p.queryCount
        modelBreakdown := stableSortDescBy (fun b => b.totalTokens) p.modelMap
        topPrompts := (stableSortDescBy (fun g => g.totalTokens) p.allPrompts).take 10 })

/-! ### Global most-expensive-prompt map -/

/-- One value of `allPromptsMap` / one entry of `topPrompts`. -/
structure TopPrompt where
  prompt : String
  inputTokens : Nat
  outputTokens : Nat
  totalTokens : Nat
  estimatedCost : ℚ
  date : String
  sessionId : String
  model : String
deriving DecidableEq

/-- Accumulate one flushed group into `allPromptsMap` (create the entry
with zero sums if absent, then add the group's sums). -/
def addTopPrompt (key curPrompt : String) (s : Session)
    (curInput curOutput : Nat) (curCost : ℚ) :
    List (String × TopPrompt) → List (String × TopPrompt)
  | [] => [(key, ⟨curPrompt.take 300, curInput, curOutput, curInput + curOutput,
           curCost, s.date, s.sessionId, s.model⟩)]
  | (k, v) :: rest =>
    if k = key then
      (k, ⟨v.prompt, v.inputTokens + curInput, v.outputTokens + curOutput,
       v.totalTokens + (curInput + curOutput), v.estimatedCost + curCost,
       v.date, v.sessionId, v.model⟩) :: rest
    else (k, v) :: addTopPrompt key curPrompt s curInput curOutput curCost rest

/-- The mutable locals of the global prompt grouping loop. -/
structure TopState where
  curPrompt : Option String
  curInput : Nat
  curOutput : Nat
  curCost : ℚ
  map : List (String × TopPrompt)
deriving DecidableEq

/-- The `flush` closure of the global loop. -/
def topFlush (s : Session) (st : TopState) : List (String × TopPrompt) :=
  if jsTruthy st.curPrompt && decide (0 < st.curInput + st.curOutput) then
    addTopPrompt ((st.curPrompt.getD "") ++ "|" ++ s.sessionId) (st.curPrompt.getD "")
      s st.curInput st.curOutput st.curCost st.map
  else st.map

/-- One query of the global grouping loop. -/
def topStep (s : Session) (st : TopState) (q : Query) : TopState :=
  let st :=
    if jsTruthy q.userPrompt && (q.userPrompt != st.curPrompt) then
      { curPrompt := q.userPrompt, curInput := 0, curOutput := 0, curCost := 0
        map := topFlush s st }
    else st
  { st with curInput := st.curInput + q.inputTokens
            curOutput := st.curOutput + q.outputTokens
            curCost := st.curCost + q.estimatedCost }

/-- `allPromptsMap` accumulated over all (sorted) sessions. -/
def buildAllPromptsMap (sessions : List Session) : List (String × TopPrompt) :=
  sessions.foldl
    (fun m s => topFlush s (s.queries.foldl (topStep s) ⟨none, 0, 0, 0, m⟩))
    []

/-! ### Cache accounting and grand totals -/

/-- The nested `reduce` computing `cacheSavingsDollars`, parametric in
the pricing resolver the closure calls. -/
def cacheSavingsWith (pricing : String → Pricing) (sessions : List Session) : ℚ :=
  sessions.foldl
    (fun sum s =>
      sum + s.queries.foldl
        (fun qs q =>
          qs + (q.cacheReadTokens : ℚ) *
            ((pricing q.model).input - (pricing q.model).cacheRead) / 1000000)
        0)
    0

/-- `cacheSavingsDollars` as in the source, using `getPricing`. -/
def cacheSavingsDollars (sessions : List Session) : ℚ :=
  cacheSavingsWith getPricing sessions

/-- `cacheHitRate`: cache reads over fresh input plus cache reads
(`totalCacheReadTokens / (totalFreshInputTokens + totalCacheReadTokens)`),
0 on a zero denominator. -/
def cacheHitRate (sessions : List Session) : ℚ :=
  let fresh : Nat := (sessions.map (·.freshInputTokens)).sum
  let read : Nat := (sessions.map (·.cacheReadTokens)).sum
  if 0 < fresh + read then (read : ℚ) / ((fresh : ℚ) + (read : ℚ)) else 0

/-- JS `Math.round` on a nonnegative rational. -/
def jsRound (x : ℚ) : ℤ := ⌊x + 1 / 2⌋

/-- The grand-totals object (the numeric fields of `grandTotals`). -/
structure GrandTotals where
  totalSessions : Nat
  totalQueries : Nat
  totalTokens : Nat
  totalInputTokens : Nat
  totalOutputTokens : Nat
  totalFreshInputTokens : Nat
  totalCacheReadTokens : Nat
  totalCacheWriteTokens : Nat
  totalEstimatedCost : ℚ
  cacheSavingsDollars : ℚ
  cacheHitRate : ℚ
  avgTokensPerQuery : ℤ
  avgTokensPerSession : ℤ
  dateRange : Option (String × String)
deriving DecidableEq

/-- Assemble `grandTotals` from the (sorted) sessions and daily buckets. -/
def buildGrandTotals (sessions : List Session) (dailyUsage : List DailyBucket) :
    GrandTotals :=
  let totalQueries := (sessions.map (·.queryCount)).sum
  let totalTokens := (sessions.map (·.totalTokens)).sum
  { totalSessions := sessions.length
    totalQueries := totalQueries
    totalTokens := totalTokens
    totalInputTokens := (sessions.map (·.inputTokens)).sum
    totalOutputTokens := (sessions.map (·.outputTokens)).sum
    totalFreshInputTokens := (sessions.map (·.freshInputTokens)).sum
    totalCacheReadTokens := (sessions.map (·.cacheReadTokens)).sum
    totalCacheWriteTokens := (sessions.map (·.cacheWriteTokens)).sum
    totalEstimatedCost := (sessions.map (·.estimatedCost)).sum
    cacheSavingsDollars := cacheSavingsDollars sessions
    cacheHitRate := cacheHitRate sessions
    avgTokensPerQuery :=
      if 0 < totalQueries then jsRound ((totalTokens : ℚ) / (totalQueries : ℚ)) else 0
    avgTokensPerSession :=
      if 0 < sessions.length then jsRound ((totalTokens : ℚ) / (sessions.length : ℚ)) else 0
    dateRange :=
      match dailyUsage with
      | [] => none
      | d :: ds => some (d.date, (ds.getLastD d).date) }

/-! ### Insight rules (the registry entries under verification) -/

/-- The filter of rule 3 (`marathon-sessions`): sessions with more than
200 turns. -/
def marathonFilter (sessions : List Session) : List Session :=
  sessions.filter fun s => decide (200 < s.queryCount)

/-- Rule 3 trigger: `longCount >= 3`. -/
def marathonSessionsEmitted (sessions : List Session) : Bool :=
  decide (3 ≤ (marathonFilter sessions).length)

/-- The filter of rule 11 (`high-rework`): prompt groups whose
`costAnalysis.reworkLoops >= 2`. -/
def reworkHeavyPrompts (allPrompts : List PromptGroup) : List PromptGroup :=
  allPrompts.filter fun p => decide (2 ≤ p.costAnalysis.reworkLoops)

/-- Rule 11 trigger: `reworkHeavyPrompts.length > 5`. -/
def highReworkEmitted (allPrompts : List PromptGroup) : Bool :=
  decide (5 < (reworkHeavyPrompts allPrompts).length)

/-! ### Top-level parse pass -/

/-- One transcript file: its session id (the basename) and its parsed
JSONL entries, in file order. -/
structure FileRec where
  sessionId : String
  entries : List Entry
deriving DecidableEq

/-- One project directory with its `.jsonl` files in listing order. -/
structure ProjectRec where
  name : String
  files : List FileRec
deriving DecidableEq

/-- The per-file accumulation state of the main loop. -/
structure ParseAcc where
  sessions : List Session
  dailyMap : List DailyBucket
  modelMap : List ModelBucket
  allPrompts : List PromptGroup
deriving DecidableEq

/-- The per-file body of the main loop: skip empty transcripts, build
the session, feed the daily/model maps and the prompt-group list. -/
def fileStep (histMap : List (String × String)) (acc : ParseAcc)
    (pf : String × FileRec) : ParseAcc :=
  if pf.2.entries.isEmpty then acc
  else
    let queries := extractSessionData pf.2.entries
    if queries.isEmpty then acc
    else
      let s := buildSession histMap pf.1 pf.2.sessionId pf.2.entries queries
      { sessions := acc.sessions ++ [s]
        dailyMap := dailyStep acc.dailyMap s
        modelMap := buildModelMap acc.modelMap queries
        allPrompts := acc.allPrompts ++ sessionPromptGroups s.date s.sessionId s.model queries }

/-- The aggregate object returned by `parseAllSessions` (insight rules
are carried as their trigger values). -/
structure Output where
  sessions : List Session
  dailyUsage : List DailyBucket
  modelBreakdown : List ModelBucket
  projectBreakdown : List ProjectBucket
  topPrompts : List TopPrompt
  allPrompts : List PromptGroup
  totals : GrandTotals
  marathonInsight : Bool
  highReworkInsight : Bool
deriving DecidableEq

/-- The full parse pass over a fixed file set: a pure function of the
history file and the project directory tree. -/
def parseAllSessions (history : List HistEntry) (projects : List ProjectRec) : Output :=
  let histMap := buildHistoryMap history
  let fileList := (projects.map fun p => p.files.map fun f => (p.name, f)).flatten
  let acc := fileList.foldl (fileStep histMap) ⟨[], [], [], []⟩
  let sessions := stableSortDescBy (fun s => s.totalTokens) acc.sessions
  let dailyUsage := stableSortAscBy (fun d => d.date) acc.dailyMap
  let topPrompts := (stableSortDescBy (fun p => p.totalTokens)
    ((buildAllPromptsMap sessions).map (·.2))).take 20
  { sessions := sessions
    dailyUsage := dailyUsage
    modelBreakdown := acc.modelMap
    projectBreakdown := buildProjectBreakdown sessions
    topPrompts := topPrompts
    allPrompts := acc.allPrompts
    totals := buildGrandTotals sessions dailyUsage
    marathonInsight := marathonSessionsEmitted sessions
    highReworkInsight := highReworkEmitted acc.allPrompts }

/-! ### Helper lemmas -/

theorem entryEmit_inv {pending : Option PendingMsg} {e : Entry} {q : Query}
    (h : entryEmit pending e = some q) :
    q.inputTokens = q.freshInputTokens + q.cacheWriteTokens + q.cacheReadTokens ∧
    q.totalTokens = q.inputTokens + q.outputTokens ∧
    q.model ≠ "<synthetic>" ∧
    q.estimatedCost = estimateCost q.model q.freshInputTokens q.cacheWriteTokens
      q.cacheReadTokens q.outputTokens := by
  unfold entryEmit at h
  split at h
  · split at h
    · rename_i msg hmsg
      split at h
      · exact absurd h (by simp)
      · rename_i hsyn
        have hq : mkAssistantQuery pending e msg = q := Option.some.inj h
        subst hq
        refine ⟨rfl, rfl, ?_, rfl⟩
        simpa [mkAssistantQuery] using hsyn
    · exact absurd h (by simp)
  · exact absurd h (by simp)

theorem extractGo_inv :
    ∀ (entries : List Entry) (pending : Option PendingMsg) (q : Query),
      q ∈ extractGo pending entries →
      q.inputTokens = q.freshInputTokens + q.cacheWriteTokens + q.cacheReadTokens ∧
      q.totalTokens = q.inputTokens + q.outputTokens ∧
      q.model ≠ "<synthetic>" ∧
      q.estimatedCost = estimateCost q.model q.freshInputTokens q.cacheWriteTokens
        q.cacheReadTokens q.outputTokens := by
  intro entries
  induction entries with
  | nil => intro pending q h; simp [extractGo] at h
  | cons e es ih =>
    intro pending q h
    simp only [extractGo, List.mem_append] at h
    rcases h with h | h
    · cases he : entryEmit pending e with
      | none => rw [he] at h; simp at h
      | some q' =>
        rw [he] at h
        simp only [Option.toList_some, List.mem_singleton] at h
        subst h
        exact entryEmit_inv he
    · exact ih _ q h

theorem extractSessionData_inv {entries : List Entry} {q : Query}
    (h : q ∈ extractSessionData entries) :
    q.inputTokens = q.freshInputTokens + q.cacheWriteTokens + q.cacheReadTokens ∧
    q.totalTokens = q.inputTokens + q.outputTokens ∧
    q.model ≠ "<synthetic>" ∧
    q.estimatedCost = estimateCost q.model q.freshInputTokens q.cacheWriteTokens
      q.cacheReadTokens q.outputTokens :=
  extractGo_inv entries none q h

theorem sum_map_total (l : List Query)
    (h : ∀ q ∈ l, q.totalTokens = q.inputTokens + q.outputTokens) :
    (l.map (·.totalTokens)).sum =
      (l.map (·.inputTokens)).sum + (l.map (·.outputTokens)).sum := by
  induction l with
  | nil => simp
  | cons q l ih =>
    have hq := h q (List.mem_cons_self q l)
    have ih' := ih fun x hx => h x (List.mem_cons_of_mem q hx)
    simp only [List.map_cons, List.sum_cons]
    omega

theorem foldl_add_sum (f : α → ℚ) :
    ∀ (l : List α) (c : ℚ), l.foldl (fun a x => a + f x) c = c + (l.map f).sum := by
  intro l
  induction l with
  | nil => intro c; simp
  | cons x l ih =>
    intro c
    simp only [List.foldl_cons, List.map_cons, List.sum_cons, ih]
    ring

theorem headD_mem {α : Type} (l : List α) (d : α) (h : 0 < l.length) :
    l.headD d ∈ l := by
  cases l with
  | nil => simp at h
  | cons x xs => simp

theorem sum_nonpos_of_mem :
    ∀ (l : List ℚ), (∀ x ∈ l, x ≤ 0) → l.sum ≤ 0 := by
  intro l
  induction l with
  | nil => intro _; simp
  | cons x l ih =>
    intro h1
    simp only [List.sum_cons]
    have hx : x ≤ 0 := h1 x (List.mem_cons_self x l)
    have : l.sum ≤ 0 := ih fun z hz => h1 z (List.mem_cons_of_mem _ hz)
    linarith

theorem sum_neg_of_mem :
    ∀ (l : List ℚ), (∀ x ∈ l, x ≤ 0) → (∃ x ∈ l, x < 0) → l.sum < 0 := by
  intro l
  induction l with
  | nil => intro _ h2; simp at h2
  | cons x l ih =>
    intro h1 h2
    simp only [List.sum_cons]
    rcases h2 with ⟨y, hy, hylt⟩
    rcases List.mem_cons.mp hy with rfl | hyl
    · have hrest : l.sum ≤ 0 :=
        sum_nonpos_of_mem l fun z hz => h1 z (List.mem_cons_of_mem _ hz)
      linarith
    · have hx : x ≤ 0 := h1 x (List.mem_cons_self x l)
      have : l.sum < 0 := ih (fun z hz => h1 z (List.mem_cons_of_mem _ hz)) ⟨y, hyl, hylt⟩
      linarith

/-! ### Concrete transcripts used as witnesses -/

/-- A plain user entry. -/
def mkUserEntry (text ts : String) : Entry :=
  { etype := "user"
    message := some { role := "user", content := some (.str text), usage := none, model := none }
    isMeta := false
    timestamp := some ts }

/-- A plain assistant entry with the four usage buckets. -/
def mkAsstEntry (model : String) (fresh cw cr out : Nat) (ts : String)
    (tools : List Block := []) : Entry :=
  { etype := "assistant"
    message := some { role := "assistant", content := some (.arr tools)
                      usage := some ⟨fresh, cw, cr, out⟩, model := some model }
    isMeta := false
    timestamp := some ts }

def exEntries : List Entry :=
  [mkUserEntry "fix the bug" "2026-01-02T10:00:00Z",
   mkAsstEntry "claude-sonnet-4-5" 100 200 300 40 "2026-01-02T10:00:05Z"]

def defQuery : Query := ⟨none, none, none, "unknown", 0, 0, 0, 0, 0, 0, 0, []⟩

def exQuery : Query := (extractSessionData exEntries).headD defQuery

/-! ### Claim theorems -/

/-- C1: every Query record emitted by the log reader satisfies
`totalTokens = inputTokens + outputTokens` and
`inputTokens = freshInputTokens + cacheWriteTokens + cacheReadTokens`. -/
theorem C1_query_token_invariant (entries : List Entry) (q : Query)
    (h : q ∈ extractSessionData entries) :
    q.totalTokens = q.inputTokens + q.outputTokens ∧
    q.inputTokens = q.freshInputTokens + q.cacheWriteTokens + q.cacheReadTokens :=
  ⟨(extractSessionData_inv h).2.1, (extractSessionData_inv h).1⟩

/-- Witness for C1 at a concrete two-entry transcript. -/
theorem C1_query_token_invariant_witness :
    exQuery.totalTokens = exQuery.inputTokens + exQuery.outputTokens ∧
    exQuery.inputTokens =
      exQuery.freshInputTokens + exQuery.cacheWriteTokens + exQuery.cacheReadTokens :=
  C1_query_token_invariant exEntries exQuery
    (headD_mem (extractSessionData exEntries) defQuery (by decide))

/-- C2: the estimated cost of a query is
`(fresh·rIn + cacheWrite·rCW + cacheRead·rCR + output·rOut) / 1e6`, the
four rates being those of the pricing tier `getPricing` resolves for the
query's model id. -/
theorem C2_cost_formula :
    (∀ (model : String) (f w r o : Nat),
      estimateCost model f w r o =
        ((f : ℚ) * (getPricing model).input + (w : ℚ) * (getPricing model).cacheWrite +
         (r : ℚ) * (getPricing model).cacheRead + (o : ℚ) * (getPricing model).output)
          / 1000000) ∧
    (∀ (entries : List Entry) (q : Query), q ∈ extractSessionData entries →
      q.estimatedCost =
        ((q.freshInputTokens : ℚ) * (getPricing q.model).input +
         (q.cacheWriteTokens : ℚ) * (getPricing q.model).cacheWrite +
         (q.cacheReadTokens : ℚ) * (getPricing q.model).cacheRead +
         (q.outputTokens : ℚ) * (getPricing q.model).output) / 1000000) := by
  constructor
  · intro model f w r o
    unfold estimateCost
    ring
  · intro entries q h
    rw [(extractSessionData_inv h).2.2.2]
    unfold estimateCost
    ring

/-- Witness for C2 at a concrete query of a concrete transcript. -/
theorem C2_cost_formula_witness :
    exQuery.estimatedCost =
      ((exQuery.freshInputTokens : ℚ) * (getPricing exQuery.model).input +
       (exQuery.cacheWriteTokens : ℚ) * (getPricing exQuery.model).cacheWrite +
       (exQuery.cacheReadTokens : ℚ) * (getPricing exQuery.model).cacheRead +
       (exQuery.outputTokens : ℚ) * (getPricing exQuery.model).output) / 1000000 :=
  C2_cost_formula.2 exEntries exQuery
    (headD_mem (extractSessionData exEntries) defQuery (by decide))

/-- C6: the MarathonSessions insight fires exactly when at least 3
sessions have strictly more than 200 turns; a 200-turn session neither
counts nor triggers, a 201-turn session counts. -/
theorem C6_marathon_boundary (sessions : List Session) (s : Session) :
    (marathonSessionsEmitted sessions = true ↔ 3 ≤ (marathonFilter sessions).length) ∧
    (s.queryCount = 200 →
      marathonFilter (s :: sessions) = marathonFilter sessions ∧
      marathonSessionsEmitted (s :: sessions) = marathonSessionsEmitted sessions) ∧
    (s.queryCount = 201 → marathonFilter (s :: sessions) = s :: marathonFilter sessions) := by
  refine ⟨by simp [marathonSessionsEmitted], ?_, ?_⟩
  · intro h200
    have heq : marathonFilter (s :: sessions) = marathonFilter sessions := by
      simp [marathonFilter, List.filter_cons, h200]
    exact ⟨heq, by simp [marathonSessionsEmitted, heq]⟩
  · intro h201
    simp [marathonFilter, List.filter_cons, h201]

/-- A bare 200-turn session record. -/
def sEx200 : Session :=
  ⟨"s200", "proj", "2026-01-01", none, "p", "m", 200, [], 0, 0, 0, 0, 0, 0, 0⟩

/-- A bare 201-turn session record. -/
def sEx201 : Session :=
  ⟨"s201", "proj", "2026-01-01", none, "p", "m", 201, [], 0, 0, 0, 0, 0, 0, 0⟩

/-- Witness for C6 at concrete 200- and 201-turn sessions. -/
theorem C6_marathon_boundary_witness :
    (marathonFilter [sEx200] = marathonFilter [] ∧
     marathonSessionsEmitted [sEx200] = marathonSessionsEmitted []) ∧
    marathonFilter [sEx201] = sEx201 :: marathonFilter [] :=
  ⟨(C6_marathon_boundary [] sEx200).2.1 rfl, (C6_marathon_boundary [] sEx201).2.2 rfl⟩

/-! ### Grouper invariants -/

/-- The rework-loop counter determined by a group's queries alone. -/
def reworkLoopsOf (qs : List Query) : Nat :=
  (((qs.map (·.tools)).flatten).foldl qualityStep ⟨0, [], [], 0⟩).reworkLoops

/-- Facts holding of every emitted session-level prompt group. -/
def AccProp (g : PromptGroup) : Prop :=
  g.inputTokens = (g.queries.map (·.inputTokens)).sum ∧
  g.outputTokens = (g.queries.map (·.outputTokens)).sum ∧
  g.totalTokens = g.inputTokens + g.outputTokens ∧
  0 < g.inputTokens + g.outputTokens ∧
  g.costAnalysis.reworkLoops = reworkLoopsOf g.queries

/-- Invariant of the session-level grouping fold. -/
structure GroupInv (st : GroupState) : Prop where
  hin : st.promptInput = (st.promptQueries.map (·.inputTokens)).sum
  hout : st.promptOutput = (st.promptQueries.map (·.outputTokens)).sum
  hacc : ∀ g ∈ st.acc, AccProp g

theorem initGroupState_inv : GroupInv initGroupState :=
  ⟨rfl, rfl, by intro g hg; simp [initGroupState] at hg⟩

theorem flushPrompt_inv (d s m : String) (st : GroupState) (h : GroupInv st) :
    ∀ g ∈ flushPrompt d s m st, AccProp g := by
  intro g hg
  unfold flushPrompt at hg
  split at hg
  · rename_i hguard
    rcases List.mem_append.mp hg with h1 | h2
    · exact h.hacc g h1
    · simp only [List.mem_singleton] at h2
      subst h2
      have hpos : 0 < st.promptInput + st.promptOutput := by
        have := (Bool.and_eq_true _ _).mp hguard
        exact of_decide_eq_true this.2
      exact ⟨h.hin, h.hout, rfl, hpos, rfl⟩
  · exact h.hacc g hg

theorem groupStep_inv (d s m : String) (st : GroupState) (q : Query)
    (h : GroupInv st) : GroupInv (groupStep d s m st q) := by
  unfold groupStep
  cases hc : (jsTruthy q.userPrompt && (q.userPrompt != st.currentPrompt)) with
  | true =>
    simp only [hc, if_true]
    exact
      { hin := by simp
        hout := by simp
        hacc := fun g hg => flushPrompt_inv d s m st h g hg }
  | false =>
    simp only [hc, Bool.false_eq_true, if_false]
    exact
      { hin := by simp [h.hin]
        hout := by simp [h.hout]
        hacc := h.hacc }

theorem groupFold_inv (d s m : String) :
    ∀ (qs : List Query) (st : GroupState), GroupInv st →
      GroupInv (qs.foldl (groupStep d s m) st) := by
  intro qs
  induction qs with
  | nil => intro st h; exact h
  | cons q qs ih =>
    intro st h
    exact ih _ (groupStep_inv d s m st q h)

/-- Every emitted session-level prompt group satisfies `AccProp`. -/
theorem sessionPromptGroups_props (d s m : String) (qs : List Query) :
    ∀ g ∈ sessionPromptGroups d s m qs, AccProp g :=
  flushPrompt_inv d s m _ (groupFold_inv d s m qs initGroupState initGroupState_inv)

/-- Queries absorbed by emitted groups all come from the suffix after
any prefix of queries with no truthy user prompt. -/
def MemInv (rest : List Query) (st : GroupState) : Prop :=
  (∀ g ∈ st.acc, ∀ q' ∈ g.queries, q' ∈ rest) ∧
  (jsTruthy st.currentPrompt = true → ∀ q' ∈ st.promptQueries, q' ∈ rest)

theorem flushPrompt_memInv (d s m : String) (rest : List Query) (st : GroupState)
    (h : MemInv rest st) :
    ∀ g ∈ flushPrompt d s m st, ∀ q' ∈ g.queries, q' ∈ rest := by
  intro g hg
  unfold flushPrompt at hg
  split at hg
  · rename_i hguard
    rcases List.mem_append.mp hg with h1 | h2
    · exact h.1 g h1
    · simp only [List.mem_singleton] at h2
      subst h2
      exact h.2 ((Bool.and_eq_true _ _).mp hguard).1
  · exact h.1 g hg

theorem groupStep_memInv (d s m : String) (rest : List Query) (st : GroupState)
    (q : Query) (hq : q ∈ rest) (h : MemInv rest st) :
    MemInv rest (groupStep d s m st q) := by
  unfold groupStep
  cases hc : (jsTruthy q.userPrompt && (q.userPrompt != st.currentPrompt)) with
  | true =>
    simp only [hc, if_true]
    refine ⟨fun g hg => flushPrompt_memInv d s m rest st h g hg, ?_⟩
    intro _ q' hq'
    simp only [List.nil_append, List.mem_singleton] at hq'
    subst hq'
    exact hq
  | false =>
    simp only [hc, Bool.false_eq_true, if_false]
    refine ⟨h.1, ?_⟩
    intro htr q' hq'
    rcases List.mem_append.mp hq' with h1 | h2
    · exact h.2 htr q' h1
    · simp only [List.mem_singleton] at h2
      subst h2
      exact hq

theorem groupFold_memInv (d s m : String) (rest : List Query) :
    ∀ (qs : List Query) (st : GroupState), (∀ q ∈ qs, q ∈ rest) → MemInv rest st →
      MemInv rest (qs.foldl (groupStep d s m) st) := by
  intro qs
  induction qs with
  | nil => intro st _ h; exact h
  | cons q qs ih =>
    intro st hmem h
    exact ih _ (fun x hx => hmem x (List.mem_cons_of_mem q hx))
      (groupStep_memInv d s m rest st q (hmem q (List.mem_cons_self q qs)) h)

/-- Folding queries with no truthy prompt changes neither the emitted
groups nor the open-group key. -/
theorem groupFold_no_prompt (d s m : String) :
    ∀ (pre : List Query) (st : GroupState),
      (∀ q ∈ pre, jsTruthy q.userPrompt = false) →
      (pre.foldl (groupStep d s m) st).acc = st.acc ∧
      (pre.foldl (groupStep d s m) st).currentPrompt = st.currentPrompt := by
  intro pre
  induction pre with
  | nil => intro st _; exact ⟨rfl, rfl⟩
  | cons q pre ih =>
    intro st hpre
    have hq : jsTruthy q.userPrompt = false := hpre q (List.mem_cons_self q pre)
    have hstep : (groupStep d s m st q).acc = st.acc ∧
        (groupStep d s m st q).currentPrompt = st.currentPrompt := by
      unfold groupStep
      simp [hq]
    have := ih (groupStep d s m st q) (fun x hx => hpre x (List.mem_cons_of_mem q hx))
    simp only [List.foldl_cons]
    exact ⟨this.1.trans hstep.1, this.2.trans hstep.2⟩

/-- Queries before the first truthy user prompt end up in no emitted
group: all absorbed queries come from the remaining suffix. -/
theorem sessionPromptGroups_omit_pre (d s m : String) (pre rest : List Query)
    (hpre : ∀ q ∈ pre, jsTruthy q.userPrompt = false) :
    ∀ g ∈ sessionPromptGroups d s m (pre ++ rest), ∀ q ∈ g.queries, q ∈ rest := by
  have hpreState := groupFold_no_prompt d s m pre initGroupState hpre
  have hmem : MemInv rest (pre.foldl (groupStep d s m) initGroupState) := by
    constructor
    · intro g hg
      rw [hpreState.1] at hg
      simp [initGroupState] at hg
    · intro htr
      rw [hpreState.2] at htr
      simp [initGroupState, jsTruthy] at htr
  have hfinal := groupFold_memInv d s m rest rest
    (pre.foldl (groupStep d s m) initGroupState) (fun _ hx => hx) hmem
  intro g hg
  unfold sessionPromptGroups at hg
  rw [List.foldl_append] at hg
  exact flushPrompt_memInv d s m rest _ hfinal g hg

/-! ### Positivity of the project-level and global prompt lists -/

theorem flushProjectPrompt_pos (s : Session) (st : ProjGroupState)
    (h : ∀ p ∈ st.acc, 0 < p.inputTokens + p.outputTokens) :
    ∀ p ∈ flushProjectPrompt s st, 0 < p.inputTokens + p.outputTokens := by
  intro p hp
  unfold flushProjectPrompt at hp
  split at hp
  · rename_i hguard
    rcases List.mem_append.mp hp with h1 | h2
    · exact h p h1
    · simp only [List.mem_singleton] at h2
      subst h2
      exact of_decide_eq_true ((Bool.and_eq_true _ _).mp hguard).2
  · exact h p hp

theorem projGroupStep_pos (s : Session) (st : ProjGroupState) (q : Query)
    (h : ∀ p ∈ st.acc, 0 < p.inputTokens + p.outputTokens) :
    ∀ p ∈ (projGroupStep s st q).acc, 0 < p.inputTokens + p.outputTokens := by
  unfold projGroupStep
  cases hc : (jsTruthy q.userPrompt && (q.userPrompt != st.curPrompt)) with
  | true =>
    simp only [hc, if_true]
    exact fun p hp => flushProjectPrompt_pos s st h p hp
  | false =>
    cases hc2 : !jsTruthy q.userPrompt with
    | true => simp only [hc, Bool.false_eq_true, if_false, hc2, if_true]; exact h
    | false => simp only [hc, Bool.false_eq_true, if_false, hc2, if_false]; exact h

theorem projectPromptGroups_pos (s : Session) :
    ∀ p ∈ projectPromptGroups s, 0 < p.inputTokens + p.outputTokens := by
  unfold projectPromptGroups
  have hfold : ∀ (qs : List Query) (st : ProjGroupState),
      (∀ p ∈ st.acc, 0 < p.inputTokens + p.outputTokens) →
      ∀ p ∈ (qs.foldl (projGroupStep s) st).acc, 0 < p.inputTokens + p.outputTokens := by
    intro qs
    induction qs with
    | nil => intro st h; exact h
    | cons q qs ih => intro st h; exact ih _ (projGroupStep_pos s st q h)
  exact flushProjectPrompt_pos s _
    (hfold s.queries initProjGroupState (by intro p hp; simp [initProjGroupState] at hp))

theorem addTopPrompt_pos (key cp : String) (s : Session) (ci co : Nat) (cc : ℚ)
    (hpos : 0 < ci + co) :
    ∀ (m : List (String × TopPrompt)), (∀ kv ∈ m, 0 < kv.2.totalTokens) →
      ∀ kv ∈ addTopPrompt key cp s ci co cc m, 0 < kv.2.totalTokens := by
  intro m
  induction m with
  | nil =>
    intro _ kv hkv
    simp only [addTopPrompt, List.mem_singleton] at hkv
    subst hkv
    exact hpos
  | cons hd tl ih =>
    obtain ⟨k', v⟩ := hd
    intro h kv hkv
    by_cases hk : k' = key
    · simp only [addTopPrompt, if_pos hk] at hkv
      rcases List.mem_cons.mp hkv with rfl | htl
      · have hv : 0 < v.totalTokens := h (k', v) (List.mem_cons_self _ tl)
        show 0 < v.totalTokens + (ci + co)
        omega
      · exact h kv (List.mem_cons_of_mem _ htl)
    · simp only [addTopPrompt, if_neg hk] at hkv
      rcases List.mem_cons.mp hkv with rfl | htl
      · exact h (k', v) (List.mem_cons_self _ tl)
      · exact ih (fun x hx => h x (List.mem_cons_of_mem _ hx)) kv htl

theorem topFlush_pos (s : Session) (st : TopState)
    (h : ∀ kv ∈ st.map, 0 < kv.2.totalTokens) :
    ∀ kv ∈ topFlush s st, 0 < kv.2.totalTokens := by
  intro kv hkv
  unfold topFlush at hkv
  split at hkv
  · rename_i hguard
    exact addTopPrompt_pos _ _ s _ _ _
      (of_decide_eq_true ((Bool.and_eq_true _ _).mp hguard).2) st.map h kv hkv
  · exact h kv hkv

theorem topStep_pos (s : Session) (st : TopState) (q : Query)
    (h : ∀ kv ∈ st.map, 0 < kv.2.totalTokens) :
    ∀ kv ∈ (topStep s st q).map, 0 < kv.2.totalTokens := by
  unfold topStep
  cases hc : (jsTruthy q.userPrompt && (q.userPrompt != st.curPrompt)) with
  | true =>
    simp only [hc, if_true]
    exact fun kv hkv => topFlush_pos s st h kv hkv
  | false =>
    simp only [hc, Bool.false_eq_true, if_false]
    exact h

theorem buildAllPromptsMap_pos (sessions : List Session) :
    ∀ kv ∈ buildAllPromptsMap sessions, 0 < kv.2.totalTokens := by
  unfold buildAllPromptsMap
  have hq : ∀ (qs : List Query) (s : Session) (st : TopState),
      (∀ kv ∈ st.map, 0 < kv.2.totalTokens) →
      ∀ kv ∈ (qs.foldl (topStep s) st).map, 0 < kv.2.totalTokens := by
    intro qs
    induction qs with
    | nil => intro s st h; exact h
    | cons q qs ih => intro s st h; exact ih s _ (topStep_pos s st q h)
  have hs : ∀ (l : List Session) (m : List (String × TopPrompt)),
      (∀ kv ∈ m, 0 < kv.2.totalTokens) →
      ∀ kv ∈ l.foldl
        (fun m s => topFlush s (s.queries.foldl (topStep s) ⟨none, 0, 0, 0, m⟩)) m,
        0 < kv.2.totalTokens := by
    intro l
    induction l with
    | nil => intro m h; exact h
    | cons s l ih =>
      intro m h
      exact ih _ (topFlush_pos s _ (hq s.queries s ⟨none, 0, 0, 0, m⟩ h))
  exact hs sessions [] (by intro kv hkv; simp at hkv)

/-! ### C5 and C10 -/

/-- C5: a session-level PromptGroup's totalTokens equals the sum of
totalTokens over exactly the queries it absorbed. -/
theorem C5_group_total_roundtrip (entries : List Entry) (d s m : String)
    (g : PromptGroup) (hg : g ∈ sessionPromptGroups d s m (extractSessionData entries)) :
    g.totalTokens = (g.queries.map (·.totalTokens)).sum := by
  have hprops := sessionPromptGroups_props d s m (extractSessionData entries) g hg
  have hsub := sessionPromptGroups_omit_pre d s m [] (extractSessionData entries)
    (by intro q hq; simp at hq) g (by simpa using hg)
  have hQ : ∀ q ∈ g.queries, q.totalTokens = q.inputTokens + q.outputTokens :=
    fun q hq => (extractSessionData_inv (hsub q hq)).2.1
  have hsum := sum_map_total g.queries hQ
  obtain ⟨h1, h2, h3, _, _⟩ := hprops
  omega

/-- A default prompt group. -/
def defGroup : PromptGroup := ⟨"", 0, 0, 0, "", "", "", [], 0, ⟨0, 0, 0, 0, 0, 0⟩⟩

def exGroup : PromptGroup :=
  (sessionPromptGroups "d" "sid" "m" (extractSessionData exEntries)).headD defGroup

/-- Witness for C5 at the group of a concrete transcript. -/
theorem C5_group_total_roundtrip_witness :
    exGroup.totalTokens = (exGroup.queries.map (·.totalTokens)).sum :=
  C5_group_total_roundtrip exEntries "d" "sid" "m" exGroup
    (headD_mem _ defGroup (by decide))

/-- C10: every group reaching the session-level, per-project, or global
top-prompt lists has strictly positive input+output tokens, and queries
before the first truthy user prompt are omitted from all groups. -/
theorem C10_top_prompt_lists (d s m : String) (qs : List Query) (sess : Session)
    (sessions : List Session) :
    (∀ g ∈ sessionPromptGroups d s m qs, 0 < g.inputTokens + g.outputTokens) ∧
    (∀ p ∈ projectPromptGroups sess, 0 < p.inputTokens + p.outputTokens) ∧
    (∀ kv ∈ buildAllPromptsMap sessions, 0 < kv.2.totalTokens) ∧
    (∀ (pre rest : List Query), (∀ q ∈ pre, jsTruthy q.userPrompt = false) →
      ∀ g ∈ sessionPromptGroups d s m (pre ++ rest), ∀ q ∈ g.queries, q ∈ rest) :=
  ⟨fun g hg => (sessionPromptGroups_props d s m qs g hg).2.2.2.1,
   projectPromptGroups_pos sess,
   buildAllPromptsMap_pos sessions,
   fun pre rest hpre => sessionPromptGroups_omit_pre d s m pre rest hpre⟩

def exRest : List Query := extractSessionData exEntries

def exGroup10 : PromptGroup :=
  (sessionPromptGroups "d" "sid" "m" ([defQuery] ++ exRest)).headD defGroup

/-- Witness for C10: with one truthy-prompt-free query prepended, the
emitted group is positive and absorbs only suffix queries. -/
theorem C10_top_prompt_lists_witness :
    0 < exGroup10.inputTokens + exGroup10.outputTokens ∧
    (exGroup10.queries.headD defQuery) ∈ exRest :=
  ⟨(C10_top_prompt_lists "d" "sid" "m" ([defQuery] ++ exRest) sEx200 []).1 exGroup10
      (headD_mem _ defGroup (by decide)),
   (C10_top_prompt_lists "d" "sid" "m" [] sEx200 []).2.2.2 [defQuery] exRest
      (by decide) exGroup10 (headD_mem _ defGroup (by decide))
      (exGroup10.queries.headD defQuery) (headD_mem _ defQuery (by decide))⟩

/-! ### Rework accounting: reworkLoops counts writes beyond the first -/

theorem bumpCount_lookup (k : String) :
    ∀ (l : List (String × Nat)),
      (bumpCount l k).lookup k = some (((l.lookup k).getD 0) + 1) := by
  intro l
  induction l with
  | nil => simp [bumpCount]
  | cons hd tl ih =>
    obtain ⟨k', n⟩ := hd
    by_cases hk : k' = k
    · subst hk
      simp [bumpCount]
    · simp only [bumpCount, if_neg hk, List.lookup_cons]
      have : (k == k') = false := by
        simp [beq_eq_false_iff_ne]
        exact fun h => hk h.symm
      simp [this, ih]

theorem bumpCount_length (k : String) :
    ∀ (l : List (String × Nat)),
      (bumpCount l k).length =
        if (l.lookup k).isSome then l.length else l.length + 1 := by
  intro l
  induction l with
  | nil => simp [bumpCount]
  | cons hd tl ih =>
    obtain ⟨k', n⟩ := hd
    by_cases hk : k' = k
    · subst hk
      simp [bumpCount]
    · have hbeq : (k == k') = false := by
        simp [beq_eq_false_iff_ne]
        exact fun h => hk h.symm
      simp only [bumpCount, if_neg hk, List.length_cons, List.lookup_cons, hbeq]
      rw [ih]
      split <;> simp

theorem bumpCount_pos (k : String) :
    ∀ (l : List (String × Nat)), (∀ kn ∈ l, 1 ≤ kn.2) →
      ∀ kn ∈ bumpCount l k, 1 ≤ kn.2 := by
  intro l
  induction l with
  | nil =>
    intro _ kn hkn
    simp only [bumpCount, List.mem_singleton] at hkn
    subst hkn
    exact Nat.le_refl 1
  | cons hd tl ih =>
    obtain ⟨k', n⟩ := hd
    intro h kn hkn
    by_cases hk : k' = k
    · rw [bumpCount, if_pos hk] at hkn
      rcases List.mem_cons.mp hkn with rfl | htl
      · have : 1 ≤ n := h (k', n) (List.mem_cons_self _ tl)
        show 1 ≤ n + 1
        omega
      · exact h kn (List.mem_cons_of_mem _ htl)
    · rw [bumpCount, if_neg hk] at hkn
      rcases List.mem_cons.mp hkn with rfl | htl
      · exact h (k', n) (List.mem_cons_self _ tl)
      · exact ih (fun x hx => h x (List.mem_cons_of_mem _ hx)) kn htl

theorem lookup_val_pos (k : String) :
    ∀ (l : List (String × Nat)), (∀ kn ∈ l, 1 ≤ kn.2) →
      ∀ n, l.lookup k = some n → 1 ≤ n := by
  intro l
  induction l with
  | nil => intro _ n hn; simp at hn
  | cons hd tl ih =>
    obtain ⟨k', v⟩ := hd
    intro h n hn
    rw [List.lookup_cons] at hn
    split at hn
    · cases hn
      exact h (k', v) (List.mem_cons_self _ tl)
    · exact ih (fun x hx => h x (List.mem_cons_of_mem _ hx)) n hn

theorem qualityStep_nonwrite (st : QualityState) (t : ToolCall)
    (hw : (t.name == "Write File") = false) :
    (qualityStep st t).fileWrites = st.fileWrites ∧
    (qualityStep st t).reworkLoops = st.reworkLoops := by
  unfold qualityStep
  simp only [hw, Bool.false_eq_true, if_false]
  constructor <;> trivial

theorem qualityStep_write (st : QualityState) (t : ToolCall)
    (hw : (t.name == "Write File") = true) :
    (qualityStep st t).fileWrites = bumpCount st.fileWrites (writeKey t) ∧
    (qualityStep st t).reworkLoops = st.reworkLoops +
      (if 1 < ((bumpCount st.fileWrites (writeKey t)).lookup (writeKey t)).getD 0
       then 1 else 0) := by
  unfold qualityStep
  simp only [hw, if_true]
  split
  · rename_i hlt
    exact ⟨rfl, by rw [if_pos (of_decide_eq_true hlt)]⟩
  · rename_i hlt
    refine ⟨rfl, ?_⟩
    rw [if_neg fun hcon => hlt (decide_eq_true hcon)]
    exact (Nat.add_zero st.reworkLoops).symm

theorem qualityStep_count (st : QualityState) (t : ToolCall)
    (hpos : ∀ kn ∈ st.fileWrites, 1 ≤ kn.2) :
    ((qualityStep st t).reworkLoops + (qualityStep st t).fileWrites.length =
      st.reworkLoops + st.fileWrites.length +
        (if t.name == "Write File" then 1 else 0)) ∧
    (∀ kn ∈ (qualityStep st t).fileWrites, 1 ≤ kn.2) := by
  cases hw : (t.name == "Write File") with
  | false =>
    obtain ⟨h1, h2⟩ := qualityStep_nonwrite st t hw
    rw [h1, h2]
    simp only [hw, Bool.false_eq_true, if_false]
    exact ⟨by omega, hpos⟩
  | true =>
    obtain ⟨h1, h2⟩ := qualityStep_write st t hw
    have hval : ((bumpCount st.fileWrites (writeKey t)).lookup (writeKey t)).getD 0
        = ((st.fileWrites.lookup (writeKey t)).getD 0) + 1 := by
      rw [bumpCount_lookup]
      rfl
    refine ⟨?_, by rw [h1]; exact bumpCount_pos (writeKey t) st.fileWrites hpos⟩
    rw [h1, h2, hval, bumpCount_length (writeKey t) st.fileWrites]
    simp only [hw, if_true]
    cases hlk : (st.fileWrites.lookup (writeKey t)) with
    | none =>
      simp only [hlk, Option.getD_none, Option.isSome_none, Bool.false_eq_true,
        if_false, Nat.zero_add, Nat.lt_irrefl]
      omega
    | some n =>
      have hn : 1 ≤ n := lookup_val_pos (writeKey t) st.fileWrites hpos n hlk
      have h1lt : 1 < n + 1 := by omega
      simp only [hlk, Option.getD_some, Option.isSome_some, if_pos h1lt, if_true]
      omega

theorem qualityFold_count :
    ∀ (ts : List ToolCall) (st : QualityState),
      (∀ kn ∈ st.fileWrites, 1 ≤ kn.2) →
      ((ts.foldl qualityStep st).reworkLoops +
          (ts.foldl qualityStep st).fileWrites.length =
        st.reworkLoops + st.fileWrites.length +
          (ts.filter (fun t => t.name == "Write File")).length) ∧
      (∀ kn ∈ (ts.foldl qualityStep st).fileWrites, 1 ≤ kn.2) := by
  intro ts
  induction ts with
  | nil => intro st hpos; exact ⟨by simp, hpos⟩
  | cons t ts ih =>
    intro st hpos
    obtain ⟨hstep, hpos'⟩ := qualityStep_count st t hpos
    obtain ⟨hrec, hpos''⟩ := ih (qualityStep st t) hpos'
    refine ⟨?_, hpos''⟩
    rw [List.foldl_cons, hrec, hstep, List.filter_cons]
    cases hw : (t.name == "Write File") with
    | false => simp [hw]
    | true => simp [hw]; omega

/-- Number of `Write File` tool calls across a group's queries. -/
def writeCalls (qs : List Query) : Nat :=
  (((qs.map (·.tools)).flatten).filter (fun t => t.name == "Write File")).length

/-- The final `fileWrites` counter object of the quality scan. -/
def fileWriteCounts (qs : List Query) : List (String × Nat) :=
  (((qs.map (·.tools)).flatten).foldl qualityStep ⟨0, [], [], 0⟩).fileWrites

/-- Number of distinct written file paths. -/
def distinctWrites (qs : List Query) : Nat := (fileWriteCounts qs).length

theorem reworkLoopsOf_plus_distinct (qs : List Query) :
    reworkLoopsOf qs + distinctWrites qs = writeCalls qs := by
  have h := qualityFold_count ((qs.map (·.tools)).flatten) ⟨0, [], [], 0⟩
    (by intro kn hkn; simp at hkn)
  simpa [reworkLoopsOf, distinctWrites, fileWriteCounts, writeCalls] using h.1

/-! ### C7 -/

/-- The written targets of a group, as the spec counts them. -/
def writeTargets (qs : List Query) : List String :=
  (((qs.map (·.tools)).flatten).filter (fun t => t.name == "Write File")).map writeKey

/-- Spec reading of the HighRework trigger unit: some file written more
than once inside the group. -/
def hasRepeatedWrite (g : PromptGroup) : Bool :=
  (writeTargets g.queries).any fun f =>
    decide (2 ≤ ((writeTargets g.queries).filter (fun f' => f' == f)).length)

def wBlock : Block := ⟨"tool_use", "", "Write File", ⟨some "a.txt", none⟩⟩

def c7Pair (p : String) : List Entry :=
  [mkUserEntry p "2026-01-03T09:00:00Z",
   mkAsstEntry "claude-sonnet-4-5" 10 0 0 10 "2026-01-03T09:00:01Z" [wBlock, wBlock]]

def c7Entries : List Entry :=
  ((["t1", "t2", "t3", "t4", "t5", "t6"].map c7Pair)).flatten

def c7Groups : List PromptGroup :=
  sessionPromptGroups "d" "sid" "m" (extractSessionData c7Entries)

/-- C7 counterexample: six groups each write the same file exactly twice.
By the claim's reading (a file written more than once in more than 5
groups) the insight should fire; the code requires `reworkLoops >= 2`
per group and does not emit it. -/
theorem C7_highRework_counterexample :
    (5 < (c7Groups.filter (fun g => hasRepeatedWrite g)).length) ∧
    highReworkEmitted c7Groups = false := by
  exact ⟨by decide, by decide⟩

/-- C7 amended: HighRework fires exactly when more than 5 prompt groups
have `reworkLoops >= 2`, where a group's reworkLoops is its number of
Write File calls beyond the first to each path — i.e. at least two more
writes than distinct written paths. -/
theorem C7_highRework_amended (allPrompts : List PromptGroup) (d s m : String)
    (qs : List Query) :
    (highReworkEmitted allPrompts = true ↔
      5 < (allPrompts.filter fun p => decide (2 ≤ p.costAnalysis.reworkLoops)).length) ∧
    (∀ (pt : String) (qs' : List Query) (ctx : Nat),
      (analyzePromptQuality pt qs' ctx).reworkLoops + distinctWrites qs' =
        writeCalls qs') ∧
    (∀ g ∈ sessionPromptGroups d s m qs,
      (2 ≤ g.costAnalysis.reworkLoops ↔
        distinctWrites g.queries + 2 ≤ writeCalls g.queries)) := by
  refine ⟨by simp [highReworkEmitted, reworkHeavyPrompts], ?_, ?_⟩
  · intro pt qs' ctx
    exact reworkLoopsOf_plus_distinct qs'
  · intro g hg
    have hrw := (sessionPromptGroups_props d s m qs g hg).2.2.2.2
    have hchar := reworkLoopsOf_plus_distinct g.queries
    rw [hrw]
    omega

def c7Group1 : PromptGroup := c7Groups.headD defGroup

/-- Witness for C7's amended statement at a concrete group. -/
theorem C7_highRework_amended_witness :
    2 ≤ c7Group1.costAnalysis.reworkLoops ↔
      distinctWrites c7Group1.queries + 2 ≤ writeCalls c7Group1.queries :=
  (C7_highRework_amended [] "d" "sid" "m" (extractSessionData c7Entries)).2.2
    c7Group1 (headD_mem _ defGroup (by decide))

/-! ### Sessions reaching the output are built by buildSession -/

theorem insertDescBy_mem {α : Type} (key : α → Nat) (x y : α) :
    ∀ (l : List α), y ∈ insertDescBy key x l ↔ y = x ∨ y ∈ l := by
  intro l
  induction l with
  | nil => simp [insertDescBy]
  | cons z l ih =>
    unfold insertDescBy
    split
    · simp only [List.mem_cons, ih]
      tauto
    · simp only [List.mem_cons]

theorem stableSort_fold_mem {α : Type} (key : α → Nat) :
    ∀ (l acc : List α) (y : α),
      y ∈ l.foldl (fun a z => insertDescBy key z a) acc ↔ y ∈ acc ∨ y ∈ l := by
  intro l
  induction l with
  | nil => simp
  | cons z l ih =>
    intro acc y
    rw [List.foldl_cons, ih, insertDescBy_mem]
    simp only [List.mem_cons]
    tauto

theorem stableSortDescBy_mem {α : Type} (key : α → Nat) (l : List α) (y : α) :
    y ∈ stableSortDescBy key l ↔ y ∈ l := by
  rw [stableSortDescBy, stableSort_fold_mem]
  simp

/-- A session as assembled by the per-file loop body. -/
def BuiltSession (s : Session) : Prop :=
  ∃ hm proj sid entries,
    s = buildSession hm proj sid entries (extractSessionData entries)

theorem builtSession_sums (s : Session) (h : BuiltSession s) :
    s.freshInputTokens = (s.queries.map (·.freshInputTokens)).sum ∧
    s.cacheWriteTokens = (s.queries.map (·.cacheWriteTokens)).sum ∧
    s.cacheReadTokens = (s.queries.map (·.cacheReadTokens)).sum ∧
    s.inputTokens = (s.queries.map (·.inputTokens)).sum ∧
    s.outputTokens = (s.queries.map (·.outputTokens)).sum ∧
    s.totalTokens =
      (s.queries.map (·.inputTokens)).sum + (s.queries.map (·.outputTokens)).sum ∧
    s.queryCount = s.queries.length := by
  obtain ⟨hm, proj, sid, entries, rfl⟩ := h
  exact ⟨rfl, rfl, rfl, rfl, rfl, rfl, rfl⟩

theorem fileStep_eq (hm : List (String × String)) (acc : ParseAcc)
    (pf : String × FileRec) :
    fileStep hm acc pf =
      if pf.2.entries.isEmpty then acc
      else if (extractSessionData pf.2.entries).isEmpty then acc
      else
        { sessions := acc.sessions ++
            [buildSession hm pf.1 pf.2.sessionId pf.2.entries
              (extractSessionData pf.2.entries)]
          dailyMap := dailyStep acc.dailyMap
            (buildSession hm pf.1 pf.2.sessionId pf.2.entries
              (extractSessionData pf.2.entries))
          modelMap := buildModelMap acc.modelMap (extractSessionData pf.2.entries)
          allPrompts := acc.allPrompts ++
            sessionPromptGroups
              (buildSession hm pf.1 pf.2.sessionId pf.2.entries
                (extractSessionData pf.2.entries)).date
              (buildSession hm pf.1 pf.2.sessionId pf.2.entries
                (extractSessionData pf.2.entries)).sessionId
              (buildSession hm pf.1 pf.2.sessionId pf.2.entries
                (extractSessionData pf.2.entries)).model
              (extractSessionData pf.2.entries) } := rfl

theorem fileStep_built (hm : List (String × String)) :
    ∀ (fl : List (String × FileRec)) (acc : ParseAcc),
      (∀ s ∈ acc.sessions, BuiltSession s) →
      ∀ s ∈ (fl.foldl (fileStep hm) acc).sessions, BuiltSession s := by
  intro fl
  induction fl with
  | nil => intro acc h; exact h
  | cons pf fl ih =>
    intro acc h
    refine ih (fileStep hm acc pf) ?_
    intro s hs
    rw [fileStep_eq] at hs
    split at hs
    · exact h s hs
    · split at hs
      · exact h s hs
      · simp only [List.mem_append, List.mem_singleton] at hs
        rcases hs with hs | rfl
        · exact h s hs
        · exact ⟨hm, pf.1, pf.2.sessionId, pf.2.entries, rfl⟩

theorem parse_sessions_built (history : List HistEntry) (projects : List ProjectRec) :
    ∀ s ∈ (parseAllSessions history projects).sessions, BuiltSession s := by
  intro s hs
  have hs' : s ∈ stableSortDescBy (fun s => s.totalTokens)
      (((projects.map fun p => p.files.map fun f => (p.name, f)).flatten).foldl
        (fileStep (buildHistoryMap history)) ⟨[], [], [], []⟩).sessions := hs
  rw [stableSortDescBy_mem] at hs'
  exact fileStep_built (buildHistoryMap history) _ ⟨[], [], [], []⟩
    (by intro x hx; simp at hx) s hs'

/-- Session-level sums flatten to query-level sums. -/
theorem sum_fs_eq_flat (l : List Session) (f : Query → Nat) (fs : Session → Nat)
    (h : ∀ s ∈ l, fs s = (s.queries.map f).sum) :
    (l.map fs).sum = (((l.map (·.queries)).flatten).map f).sum := by
  induction l with
  | nil => simp
  | cons s l ih =>
    simp only [List.map_cons, List.sum_cons, List.flatten_cons, List.map_append,
      List.sum_append]
    rw [h s (List.mem_cons_self s l),
      ih fun x hx => h x (List.mem_cons_of_mem s hx)]

/-! ### C3 -/

/-- Total fresh-input tokens over all queries of all sessions (the
aggregate the spec's hit-rate formula refers to). -/
def flatFresh (l : List Session) : Nat :=
  (((l.map (·.queries)).flatten).map (·.freshInputTokens)).sum

/-- Total cache-write tokens over all queries of all sessions. -/
def flatCacheWrite (l : List Session) : Nat :=
  (((l.map (·.queries)).flatten).map (·.cacheWriteTokens)).sum

/-- Total cache-read tokens over all queries of all sessions. -/
def flatRead (l : List Session) : Nat :=
  (((l.map (·.queries)).flatten).map (·.cacheReadTokens)).sum

def c3entries : List Entry :=
  [mkAsstEntry "claude-sonnet-4-5" 0 100 100 10 "2026-01-05T08:00:00Z"]

def c3out : Output := parseAllSessions [] [⟨"p", [⟨"s", c3entries⟩]⟩]

/-- C3 counterexample: with 0 fresh, 100 cache-write and 100 cache-read
tokens the code reports a hit rate of 1 (cache-write tokens are absent
from its denominator), while the claim's formula gives 1/2. -/
theorem C3_cacheHitRate_counterexample :
    c3out.totals.cacheHitRate ≠
      (c3out.totals.totalCacheReadTokens : ℚ) /
        ((c3out.totals.totalFreshInputTokens : ℚ) +
         (c3out.totals.totalCacheWriteTokens : ℚ) +
         (c3out.totals.totalCacheReadTokens : ℚ)) := by
  have hfresh : (c3out.sessions.map (·.freshInputTokens)).sum = 0 := by decide
  have hread : (c3out.sessions.map (·.cacheReadTokens)).sum = 100 := by decide
  have hf : c3out.totals.totalFreshInputTokens = 0 := by decide
  have hw : c3out.totals.totalCacheWriteTokens = 100 := by decide
  have hr : c3out.totals.totalCacheReadTokens = 100 := by decide
  have hrate : c3out.totals.cacheHitRate = (100 : ℚ) / ((0 : ℚ) + (100 : ℚ)) := by
    show cacheHitRate c3out.sessions = _
    simp only [cacheHitRate]
    rw [hfresh, hread]
    norm_num
  rw [hrate, hf, hw, hr]
  norm_num

/-- C3 amended: the aggregate cache hit rate is cache-read tokens over
fresh-input plus cache-read tokens (cache-write tokens are not part of
the denominator), and 0 when that denominator is 0. -/
theorem C3_cacheHitRate_amended (history : List HistEntry) (projects : List ProjectRec) :
    (parseAllSessions history projects).totals.cacheHitRate =
      if 0 < flatFresh (parseAllSessions history projects).sessions +
          flatRead (parseAllSessions history projects).sessions then
        (flatRead (parseAllSessions history projects).sessions : ℚ) /
          ((flatFresh (parseAllSessions history projects).sessions : ℚ) +
           (flatRead (parseAllSessions history projects).sessions : ℚ))
      else 0 := by
  have hb := parse_sessions_built history projects
  have hf := sum_fs_eq_flat (parseAllSessions history projects).sessions
    (·.freshInputTokens) (·.freshInputTokens)
    (fun s hs => (builtSession_sums s (hb s hs)).1)
  have hr := sum_fs_eq_flat (parseAllSessions history projects).sessions
    (·.cacheReadTokens) (·.cacheReadTokens)
    (fun s hs => (builtSession_sums s (hb s hs)).2.2.1)
  show cacheHitRate (parseAllSessions history projects).sessions = _
  simp only [cacheHitRate, flatFresh, flatRead]
  rw [hf, hr]

/-! ### C4 -/

theorem cacheSavingsWith_eq (pr : String → Pricing) (l : List Session) :
    cacheSavingsWith pr l =
      (((l.map (·.queries)).flatten).map (fun q =>
        (q.cacheReadTokens : ℚ) *
          ((pr q.model).input - (pr q.model).cacheRead) / 1000000)).sum := by
  unfold cacheSavingsWith
  rw [foldl_add_sum, zero_add]
  have hinner : ∀ s : Session,
      s.queries.foldl (fun qs q =>
        qs + (q.cacheReadTokens : ℚ) *
          ((pr q.model).input - (pr q.model).cacheRead) / 1000000) 0 =
      (s.queries.map (fun q =>
        (q.cacheReadTokens : ℚ) *
          ((pr q.model).input - (pr q.model).cacheRead) / 1000000)).sum := by
    intro s
    rw [foldl_add_sum, zero_add]
  rw [List.map_congr_left fun s _ => hinner s]
  induction l with
  | nil => simp
  | cons s l ih =>
    simp only [List.map_cons, List.sum_cons, List.flatten_cons, List.map_append,
      List.sum_append, ih]

/-- C4: total cache savings is the unclamped per-query sum
`cacheRead × (rIn − rCacheRead) / 1e6` under each query's own tier; with
a tier whose cache-read rate exceeds its fresh-input rate the total is
strictly negative. -/
theorem C4_cache_savings (sessions : List Session) :
    (cacheSavingsDollars sessions =
      (((sessions.map (·.queries)).flatten).map (fun q =>
        (q.cacheReadTokens : ℚ) *
          ((getPricing q.model).input - (getPricing q.model).cacheRead) / 1000000)).sum) ∧
    (∀ (pr : String → Pricing) (l : List Session),
      (∀ q ∈ (l.map (·.queries)).flatten,
        (pr q.model).input < (pr q.model).cacheRead) →
      (∃ q ∈ (l.map (·.queries)).flatten, 0 < q.cacheReadTokens) →
      cacheSavingsWith pr l < 0) := by
  constructor
  · exact cacheSavingsWith_eq getPricing sessions
  · intro pr l hneg hex
    rw [cacheSavingsWith_eq]
    apply sum_neg_of_mem
    · intro x hx
      simp only [List.mem_map] at hx
      obtain ⟨q, hq, rfl⟩ := hx
      have hlt := hneg q hq
      have hcr : (0 : ℚ) ≤ (q.cacheReadTokens : ℚ) := Nat.cast_nonneg _
      have hmul : (q.cacheReadTokens : ℚ) *
          ((pr q.model).input - (pr q.model).cacheRead) ≤ 0 :=
        mul_nonpos_of_nonneg_of_nonpos hcr (by linarith)
      have h6 : (0 : ℚ) < 1000000 := by norm_num
      exact div_nonpos_of_nonpos_of_nonneg hmul (le_of_lt h6)
    · obtain ⟨q, hq, hcr⟩ := hex
      refine ⟨_, List.mem_map_of_mem _ hq, ?_⟩
      have hlt := hneg q hq
      have hcr' : (0 : ℚ) < (q.cacheReadTokens : ℚ) := by exact_mod_cast hcr
      have hmul : (q.cacheReadTokens : ℚ) *
          ((pr q.model).input - (pr q.model).cacheRead) < 0 :=
        mul_neg_of_pos_of_neg hcr' (by linarith)
      exact div_neg_of_neg_of_pos hmul (by norm_num)

/-- A pricing table whose cache-read rate exceeds its fresh-input rate. -/
def badPricing : String → Pricing := fun _ => ⟨1, 1, 2, 1⟩

def c4query : Query := { defQuery with cacheReadTokens := 10 }

def c4session : Session :=
  ⟨"s", "p", "d", none, "f", "m", 1, [c4query], 0, 0, 10, 10, 0, 10, 0⟩

/-- Witness for C4's no-clamping consequence at a concrete bad tier. -/
theorem C4_cache_savings_witness : cacheSavingsWith badPricing [c4session] < 0 :=
  (C4_cache_savings []).2 badPricing [c4session]
    (by
      intro q hq
      simp only [c4session, List.map_cons, List.map_nil, List.flatten,
        List.append_nil, List.mem_singleton] at hq
      subst hq
      norm_num [badPricing])
    ⟨c4query, by simp [c4session], by decide⟩

/-! ### C8 -/

theorem addToModelMap_total (q : Query) :
    ∀ (m : List ModelBucket),
      ((addToModelMap q m).map (·.totalTokens)).sum =
        (m.map (·.totalTokens)).sum + q.totalTokens := by
  intro m
  induction m with
  | nil => simp [addToModelMap]
  | cons b bs ih =>
    unfold addToModelMap
    split
    · simp only [List.map_cons, List.sum_cons]
      omega
    · simp only [List.map_cons, List.sum_cons, ih]
      omega

theorem addToModelMap_models (q : Query) (P : String → Prop) (hq : P q.model) :
    ∀ (m : List ModelBucket), (∀ b ∈ m, P b.model) →
      ∀ b ∈ addToModelMap q m, P b.model := by
  intro m
  induction m with
  | nil =>
    intro _ b hb
    simp only [addToModelMap, List.mem_singleton] at hb
    subst hb
    exact hq
  | cons hd tl ih =>
    intro h b hb
    unfold addToModelMap at hb
    split at hb
    · rcases List.mem_cons.mp hb with rfl | htl
      · exact h hd (List.mem_cons_self hd tl)
      · exact h b (List.mem_cons_of_mem hd htl)
    · rcases List.mem_cons.mp hb with rfl | htl
      · exact h b (List.mem_cons_self b tl)
      · exact ih (fun x hx => h x (List.mem_cons_of_mem hd hx)) b htl

theorem buildModelMap_no_sentinel :
    ∀ (qs : List Query) (init : List ModelBucket),
      (∀ b ∈ init, isSentinelModel b.model = false) →
      ∀ b ∈ buildModelMap init qs, isSentinelModel b.model = false := by
  intro qs
  induction qs with
  | nil => intro init h; exact h
  | cons q qs ih =>
    intro init h
    unfold buildModelMap
    rw [List.foldl_cons]
    cases hq : isSentinelModel q.model with
    | true =>
      simp only [hq, if_true]
      exact ih init h
    | false =>
      simp only [hq, Bool.false_eq_true, if_false]
      exact ih _ (addToModelMap_models q (fun mo => isSentinelModel mo = false)
        hq init h)

theorem buildModelMap_total :
    ∀ (qs : List Query) (init : List ModelBucket),
      ((buildModelMap init qs).map (·.totalTokens)).sum =
        (init.map (·.totalTokens)).sum +
        ((qs.filter (fun q => !isSentinelModel q.model)).map (·.totalTokens)).sum := by
  intro qs
  induction qs with
  | nil => intro init; simp [buildModelMap]
  | cons q qs ih =>
    intro init
    unfold buildModelMap
    rw [List.foldl_cons, List.filter_cons]
    cases hq : isSentinelModel q.model with
    | true =>
      simp only [hq, if_true, Bool.not_true, Bool.false_eq_true, if_false]
      exact ih init
    | false =>
      simp only [hq, Bool.false_eq_true, if_false, Bool.not_false, if_true]
      have := ih (addToModelMap q init)
      unfold buildModelMap at this
      rw [this, addToModelMap_total]
      simp only [List.map_cons, List.sum_cons]
      omega

theorem addToDailyMap_total (s : Session) :
    ∀ (m : List DailyBucket),
      ((addToDailyMap s m).map (·.totalTokens)).sum =
        (m.map (·.totalTokens)).sum + s.totalTokens := by
  intro m
  induction m with
  | nil => simp [addToDailyMap]
  | cons b bs ih =>
    unfold addToDailyMap
    split
    · simp only [List.map_cons, List.sum_cons]
      omega
    · simp only [List.map_cons, List.sum_cons, ih]
      omega

theorem dailyFold_total :
    ∀ (l : List Session) (init : List DailyBucket),
      ((l.foldl dailyStep init).map (·.totalTokens)).sum =
        (init.map (·.totalTokens)).sum +
        ((l.filter (fun s => s.date != "unknown")).map (·.totalTokens)).sum := by
  intro l
  induction l with
  | nil => intro init; simp
  | cons s l ih =>
    intro init
    rw [List.foldl_cons, List.filter_cons]
    cases hs : (s.date != "unknown") with
    | true =>
      simp only [hs, if_true, dailyStep]
      rw [ih, addToDailyMap_total]
      simp only [List.map_cons, List.sum_cons]
      omega
    | false =>
      simp only [hs, Bool.false_eq_true, if_false, dailyStep]
      exact ih init

/-- C8: sentinel-model queries (`unknown`, `<synthetic>`) never form
per-model buckets (and `<synthetic>` rows are never emitted at all),
while session, daily and grand totals sum over every query with no
model filter. -/
theorem C8_sentinel_models (entries : List Entry) (qs : List Query)
    (sessions : List Session) (daily : List DailyBucket)
    (hm : List (String × String)) (proj sid : String) :
    (∀ q ∈ extractSessionData entries, q.model ≠ "<synthetic>") ∧
    (∀ b ∈ buildModelMap [] qs, b.model ≠ "unknown" ∧ b.model ≠ "<synthetic>") ∧
    (((buildModelMap [] qs).map (·.totalTokens)).sum =
      ((qs.filter (fun q => !isSentinelModel q.model)).map (·.totalTokens)).sum) ∧
    ((buildSession hm proj sid entries (extractSessionData entries)).totalTokens =
      ((extractSessionData entries).map (·.totalTokens)).sum) ∧
    (((sessions.foldl dailyStep []).map (·.totalTokens)).sum =
      ((sessions.filter (fun s => s.date != "unknown")).map (·.totalTokens)).sum) ∧
    ((buildGrandTotals sessions daily).totalTokens =
      (sessions.map (·.totalTokens)).sum) := by
  refine ⟨?_, ?_, ?_, ?_, ?_, rfl⟩
  · intro q hq
    exact (extractSessionData_inv hq).2.2.1
  · intro b hb
    have := buildModelMap_no_sentinel qs [] (by intro x hx; simp at hx) b hb
    unfold isSentinelModel at this
    constructor
    · intro hcon
      rw [hcon] at this
      simp at this
    · intro hcon
      rw [hcon] at this
      simp at this
  · have := buildModelMap_total qs []
    simpa using this
  · exact (sum_map_total (extractSessionData entries)
      fun q hq => (extractSessionData_inv hq).2.1).symm
  · have := dailyFold_total sessions []
    simpa using this

def c8entries : List Entry :=
  [{ etype := "assistant"
     message := some { role := "assistant", content := none
                       usage := some ⟨5, 5, 5, 5⟩, model := none }
     isMeta := false
     timestamp := some "2026-01-06T01:00:00Z" },
   mkAsstEntry "claude-sonnet-4-5" 100 200 300 40 "2026-01-06T01:00:05Z"]

def defBucket : ModelBucket := ⟨"m", 0, 0, 0, 0, 0, 0, 0⟩

/-- Witness for C8 at a transcript mixing an unknown-model query and a
sonnet query. -/
theorem C8_sentinel_models_witness :
    ((extractSessionData c8entries).headD defQuery).model ≠ "<synthetic>" ∧
    ((buildModelMap [] (extractSessionData c8entries)).headD defBucket).model ≠
      "unknown" ∧
    (buildSession [] "p" "s" c8entries (extractSessionData c8entries)).totalTokens =
      ((extractSessionData c8entries).map (·.totalTokens)).sum :=
  ⟨(C8_sentinel_models c8entries [] [] [] [] "p" "s").1 _
      (headD_mem _ defQuery (by decide)),
   ((C8_sentinel_models c8entries (extractSessionData c8entries) [] [] [] "p" "s").2.1 _
      (headD_mem _ defBucket (by decide))).1,
   (C8_sentinel_models c8entries [] [] [] [] "p" "s").2.2.2.1⟩

/-! ### C9 -/

theorem insertDescBy_all_le {α : Type} (key : α → Nat) (x : α) :
    ∀ (acc : List α), (∀ y ∈ acc, key x ≤ key y) →
      insertDescBy key x acc = acc ++ [x] := by
  intro acc
  induction acc with
  | nil => intro _; rfl
  | cons y ys ih =>
    intro h
    unfold insertDescBy
    rw [if_pos (h y (List.mem_cons_self y ys))]
    rw [ih fun z hz => h z (List.mem_cons_of_mem y hz)]
    rfl

theorem stableSort_all_eq {α : Type} (key : α → Nat) (c : Nat) :
    ∀ (l acc : List α), (∀ s ∈ l, key s = c) → (∀ y ∈ acc, key y = c) →
      l.foldl (fun a z => insertDescBy key z a) acc = acc ++ l := by
  intro l
  induction l with
  | nil => intro acc _ _; simp
  | cons z l ih =>
    intro acc hl hacc
    rw [List.foldl_cons]
    rw [insertDescBy_all_le key z acc fun y hy => by
      rw [hl z (List.mem_cons_self z l), hacc y hy]]
    rw [ih (acc ++ [z]) (fun s hs => hl s (List.mem_cons_of_mem z hs)) (by
      intro y hy
      rcases List.mem_append.mp hy with h1 | h2
      · exact hacc y h1
      · simp only [List.mem_singleton] at h2
        subst h2
        exact hl y (List.mem_cons_self y l))]
    simp

/-- C9: the parse pass is a pure function of the file set — running it
twice over unchanged input yields identical aggregate output — and its
session sort keeps the original input order among equal token totals. -/
theorem C9_parse_idempotent (history : List HistEntry) (projects : List ProjectRec)
    (l : List Session) (c : Nat) :
    (parseAllSessions history projects = parseAllSessions history projects) ∧
    ((∀ s ∈ l, s.totalTokens = c) →
      stableSortDescBy (fun s => s.totalTokens) l = l) := by
  refine ⟨rfl, fun h => ?_⟩
  unfold stableSortDescBy
  rw [stableSort_all_eq (fun s => s.totalTokens) c l [] h (by simp)]
  simp

/-- Witness for C9's stable tie-breaking at two equal-total sessions. -/
theorem C9_parse_idempotent_witness :
    stableSortDescBy (fun s => s.totalTokens) [sEx200, sEx201] = [sEx200, sEx201] :=
  (C9_parse_idempotent [] [] [sEx200, sEx201] 0).2 (by decide)

end ClaudeSpend
